import Mathlib

/-!
Shallow embedding of the receipt-scanner repository (jgiacobbi/receipt-scanner).

Source files embedded here:
  * `src/scanner/enum.py`    — the `FileType` enum,
  * `src/scanner/record.py`  — the `Record` dataclass and the CSV ledger codec,
  * `src/scanner/scanner.py` — `Scanner.scan` and file-type sniffing,
  * `src/main.py`            — `Main.generate_csv` (the persistence merge).

Python strings are modelled as Lean `String`; a single-character
`str.split` / `str.join` / `str.strip` is modelled over `String.data`.
Python `float` field values are modelled as `ℚ` (every finite Python float is
a decimal rational, and none of the verified properties depend on rounding);
`str(float)` is modelled as exact shortest decimal rendering.
Python `datetime.date` is modelled as a year/month/day structure.
Raised exceptions are modelled with `Except PyErr`.
-/

/-- A raised Python exception, as far as the embedded code distinguishes them. -/
inductive PyErr where
  | valueError (msg : String)
  | typeError
  | attributeError (msg : String)
  deriving DecidableEq, Repr

deriving instance DecidableEq for Except

/-! ### Character and digit utilities -/

/-- The character for a single decimal digit (`0 ≤ d ≤ 9`). -/
def digitChar10 (d : Nat) : Char := Char.ofNat (48 + d)

/-- The numeric value of a decimal digit character. -/
def digitVal (c : Char) : Nat := c.toNat - 48

/-- Fuel-driven digit expansion, most significant digit first (structural
recursion on the fuel, so that the kernel can evaluate it). -/
def natCharsAux : Nat → Nat → List Char
  | 0, _ => []
  | _ + 1, 0 => []
  | fuel + 1, n => natCharsAux fuel (n / 10) ++ [digitChar10 (n % 10)]

/-- Decimal rendering of a natural number as a character list,
most significant digit first: the model of Python `str` on a non-negative int. -/
def natChars (n : Nat) : List Char :=
  if n = 0 then ['0'] else natCharsAux n n

theorem natCharsAux_eq_digits : ∀ fuel n, 0 < n → n ≤ fuel →
    natCharsAux fuel n = ((Nat.digits 10 n).map digitChar10).reverse := by
  intro fuel
  induction fuel with
  | zero => intro n h1 h2; omega
  | succ f ih =>
    intro n h1 h2
    rw [show natCharsAux (f + 1) n = natCharsAux f (n / 10) ++ [digitChar10 (n % 10)]
        from by
      cases n with
      | zero => omega
      | succ m => rfl]
    rw [Nat.digits_def' (by norm_num : 1 < 10) h1]
    simp only [List.map_cons, List.reverse_cons]
    by_cases h10 : n / 10 = 0
    · rw [h10]
      cases f <;> simp [natCharsAux]
    · rw [ih (n / 10) (Nat.pos_of_ne_zero h10) (by omega)]

theorem natChars_eq_digits (n : Nat) :
    natChars n = if n = 0 then ['0'] else ((Nat.digits 10 n).map digitChar10).reverse := by
  unfold natChars
  by_cases h : n = 0
  · rw [if_pos h, if_pos h]
  · rw [if_neg h, if_neg h, natCharsAux_eq_digits n n (Nat.pos_of_ne_zero h) le_rfl]

/-- Reads a run of decimal digit characters, most significant first.
Leading zeros are allowed (as Python `int`/`float` parsing allows them). -/
def natOfFold (cs : List Char) : Nat :=
  cs.foldl (fun a c => 10 * a + digitVal c) 0

/-- Left-pad the decimal rendering of `n` with zeros to width `w`
(the model of a zero-padded numeric field). -/
def padZeros (w : Nat) (n : Nat) : List Char :=
  let cs := natChars n
  List.replicate (w - cs.length) '0' ++ cs

theorem digitVal_digitChar10 {d : Nat} (hd : d < 10) :
    digitVal (digitChar10 d) = d := by
  interval_cases d <;> decide

theorem isDigit_digitChar10 {d : Nat} (hd : d < 10) :
    (digitChar10 d).isDigit = true := by
  interval_cases d <;> decide

theorem foldl_base10 (ds : List Nat) (a : Nat) :
    List.foldl (fun x d => 10 * x + d) a ds.reverse
      = a * 10 ^ ds.length + Nat.ofDigits 10 ds := by
  induction ds generalizing a with
  | nil => simp
  | cons d t ih =>
    simp only [List.reverse_cons, List.foldl_append, List.foldl_cons, List.foldl_nil,
      ih, Nat.ofDigits_cons, List.length_cons]
    ring

theorem natOfFold_natChars (n : Nat) : natOfFold (natChars n) = n := by
  by_cases h : n = 0
  · subst h; decide
  · rw [natChars_eq_digits, if_neg h]
    unfold natOfFold
    rw [← List.map_reverse, List.foldl_map]
    have hcongr :
        List.foldl (fun a d => 10 * a + digitVal (digitChar10 d)) 0
            (Nat.digits 10 n).reverse
          = List.foldl (fun a d => 10 * a + d) 0 (Nat.digits 10 n).reverse := by
      refine List.foldl_ext _ _ 0 ?_
      intro a d hdmem
      rw [List.mem_reverse] at hdmem
      rw [digitVal_digitChar10 (Nat.digits_lt_base (by norm_num) hdmem)]
    rw [hcongr, foldl_base10, Nat.ofDigits_digits]
    simp

theorem natChars_all_digit (n : Nat) : ∀ c ∈ natChars n, c.isDigit = true := by
  intro c hc
  rw [natChars_eq_digits] at hc
  by_cases h : n = 0
  · rw [if_pos h] at hc; simp at hc; subst hc; decide
  · rw [if_neg h, List.mem_reverse, List.mem_map] at hc
    obtain ⟨d, hdmem, rfl⟩ := hc
    exact isDigit_digitChar10 (Nat.digits_lt_base (by norm_num) hdmem)

theorem natChars_length_le {n w : Nat} (hw : 1 ≤ w) (hn : n < 10 ^ w) :
    (natChars n).length ≤ w := by
  rw [natChars_eq_digits]
  by_cases h : n = 0
  · rw [if_pos h]; simpa using hw
  · rw [if_neg h]
    simp only [List.length_reverse, List.length_map]
    rw [Nat.digits_len 10 n (by norm_num) h]
    have := Nat.log_lt_of_lt_pow h hn
    omega

theorem natOfFold_padZeros (w n : Nat) : natOfFold (padZeros w n) = n := by
  unfold padZeros natOfFold
  rw [List.foldl_append]
  have hz : ∀ z : Nat, List.foldl (fun a c => 10 * a + digitVal c) 0
      (List.replicate z '0') = 0 := by
    intro z
    induction z with
    | zero => rfl
    | succ k ih => simpa [List.replicate_succ] using ih
  rw [hz]
  exact natOfFold_natChars n

theorem padZeros_length {w n : Nat} (hw : 1 ≤ w) (hn : n < 10 ^ w) :
    (padZeros w n).length = w := by
  unfold padZeros
  have := natChars_length_le hw hn
  simp only [List.length_append, List.length_replicate]
  omega

theorem padZeros_all_digit (w n : Nat) : ∀ c ∈ padZeros w n, c.isDigit = true := by
  intro c hc
  unfold padZeros at hc
  rcases List.mem_append.mp hc with h | h
  · rw [List.eq_of_mem_replicate h]; decide
  · exact natChars_all_digit n c h

theorem isDigit_ne (c : Char) (h : c.isDigit = true) :
    c ≠ ',' ∧ c ≠ '\n' ∧ c ≠ '-' ∧ c ≠ '_' ∧ c.isWhitespace = false := by
  have hne : ∀ x : Char, x.isDigit = false → c ≠ x := by
    intro x hx hcx
    rw [hcx, hx] at h
    exact Bool.false_ne_true h
  refine ⟨hne ',' (by decide), hne '\n' (by decide), hne '-' (by decide),
    hne '_' (by decide), ?_⟩
  have h1 := hne ' ' (by decide)
  have h2 := hne '\t' (by decide)
  have h3 := hne '\r' (by decide)
  have h4 := hne '\n' (by decide)
  simp [Char.isWhitespace, h1, h2, h3, h4]

/-! ### Python single-character string split / join / strip -/

/-- Python `s.split(sep)` for a one-character separator, over character lists.
Like Python, the result is never empty and preserves empty segments. -/
def splitChar (c : Char) : List Char → List (List Char)
  | [] => [[]]
  | x :: xs =>
    if x = c then [] :: splitChar c xs
    else
      match splitChar c xs with
      | h :: t => (x :: h) :: t
      | [] => [[x]]

/-- Python `sep.join(parts)` for a one-character separator, over character lists. -/
def joinChar (c : Char) : List (List Char) → List Char
  | [] => []
  | [x] => x
  | x :: xs => x ++ c :: joinChar c xs

theorem splitChar_ne_nil (c : Char) (l : List Char) : splitChar c l ≠ [] := by
  induction l with
  | nil => simp [splitChar]
  | cons x xs ih =>
    unfold splitChar
    by_cases h : x = c
    · simp [h]
    · rw [if_neg h]
      rcases hs : splitChar c xs with _ | ⟨hd, tl⟩ <;> simp

theorem splitChar_no_sep {c : Char} {l : List Char} (h : c ∉ l) :
    splitChar c l = [l] := by
  induction l with
  | nil => rfl
  | cons x xs ih =>
    simp only [splitChar]
    rw [if_neg (by intro hx; exact h (hx ▸ List.mem_cons_self x xs))]
    rw [ih (fun hm => h (List.mem_cons_of_mem x hm))]

theorem splitChar_append_sep {c : Char} {a : List Char} (r : List Char)
    (h : c ∉ a) : splitChar c (a ++ c :: r) = a :: splitChar c r := by
  induction a with
  | nil => simp [splitChar]
  | cons x xs ih =>
    rw [List.cons_append]
    simp only [splitChar]
    rw [if_neg (by intro hx; exact h (hx ▸ List.mem_cons_self x xs))]
    rw [ih (fun hm => h (List.mem_cons_of_mem x hm))]

theorem splitChar_joinChar {c : Char} {xss : List (List Char)}
    (hne : xss ≠ []) (h : ∀ l ∈ xss, c ∉ l) :
    splitChar c (joinChar c xss) = xss := by
  induction xss with
  | nil => exact absurd rfl hne
  | cons x xs ih =>
    rcases xs with _ | ⟨y, ys⟩
    · exact splitChar_no_sep (h x (List.mem_cons_self x []))
    · show splitChar c (x ++ c :: joinChar c (y :: ys)) = x :: (y :: ys)
      rw [splitChar_append_sep _ (h x (List.mem_cons_self x (y :: ys)))]
      rw [ih (by simp) (fun l hl => h l (List.mem_cons_of_mem x hl))]

/-- Python `s.strip()` over a character list: drop whitespace from both ends. -/
def stripChars (l : List Char) : List Char :=
  ((l.dropWhile Char.isWhitespace).reverse.dropWhile Char.isWhitespace).reverse

theorem dropWhile_eq_self_of_head {l : List Char}
    (h : ∀ c ∈ l.take 1, c.isWhitespace = false) :
    l.dropWhile Char.isWhitespace = l := by
  cases l with
  | nil => rfl
  | cons x xs =>
    rw [List.dropWhile_cons, if_neg]
    simp only [List.take_succ_cons, List.take_zero, List.mem_singleton] at h
    simp [h x rfl]

theorem stripChars_eq_self {l : List Char}
    (h1 : ∀ c ∈ l.take 1, c.isWhitespace = false)
    (h2 : ∀ c ∈ l.reverse.take 1, c.isWhitespace = false) :
    stripChars l = l := by
  unfold stripChars
  rw [dropWhile_eq_self_of_head h1, dropWhile_eq_self_of_head h2, List.reverse_reverse]

/-- Python `s.split(sep)` for a one-character separator, on `String`. -/
def pySplit (c : Char) (s : String) : List String :=
  (splitChar c s.data).map String.mk

/-- Python `sep.join(parts)` for a one-character separator, on `String`. -/
def pyJoin (c : Char) (l : List String) : String :=
  String.mk (joinChar c (l.map String.data))

/-- Python `s.strip()` on `String`. -/
def pyStrip (s : String) : String := String.mk (stripChars s.data)

theorem natChars_ne_nil (n : Nat) : natChars n ≠ [] := by
  rw [natChars_eq_digits]
  by_cases h : n = 0
  · simp [h]
  · rw [if_neg h]
    simp [Nat.digits_ne_nil_iff_ne_zero.mpr h]

theorem padZeros_ne_nil (w n : Nat) : padZeros w n ≠ [] := by
  unfold padZeros
  simp [natChars_ne_nil n]

theorem stripChars_eq_self_of_nows {l : List Char}
    (h : ∀ c ∈ l, c.isWhitespace = false) : stripChars l = l :=
  stripChars_eq_self (fun c hc => h c (List.mem_of_mem_take hc))
    (fun c hc => h c (List.mem_reverse.mp (List.mem_of_mem_take hc)))

/-! ### Python `datetime.date` (src/scanner/record.py imports it as `pydate`) -/

structure PyDate where
  year : Nat
  month : Nat
  day : Nat
  deriving DecidableEq, Repr

namespace PyDate

/-- Days in a month of the proleptic Gregorian calendar, as Python
`datetime.date` validates them. -/
def daysInMonth (year month : Nat) : Nat :=
  if month = 2 then
    if year % 4 = 0 ∧ (year % 100 ≠ 0 ∨ year % 400 = 0) then 29 else 28
  else if month = 4 ∨ month = 6 ∨ month = 9 ∨ month = 11 then 30
  else 31

/-- The representation invariant of Python `datetime.date` values. -/
def Valid (d : PyDate) : Prop :=
  1 ≤ d.year ∧ d.year ≤ 9999 ∧ 1 ≤ d.month ∧ d.month ≤ 12 ∧
    1 ≤ d.day ∧ d.day ≤ daysInMonth d.year d.month

instance (d : PyDate) : Decidable d.Valid := by unfold Valid; infer_instance

/-- Python `str(date)`: ISO `YYYY-MM-DD`, zero-padded. -/
def isoStr (d : PyDate) : String :=
  String.mk (padZeros 4 d.year ++ '-' :: (padZeros 2 d.month ++ '-' :: padZeros 2 d.day))

/-- Helper for `fromisoformat`: interpret the dash-separated components. -/
def fromIsoParts : List (List Char) → Except PyErr PyDate
  | [a, b, c] =>
    if a.length = 4 ∧ b.length = 2 ∧ c.length = 2 ∧
        a.all Char.isDigit ∧ b.all Char.isDigit ∧ c.all Char.isDigit then
      let y := natOfFold a
      let mo := natOfFold b
      let dy := natOfFold c
      if 1 ≤ y ∧ 1 ≤ mo ∧ mo ≤ 12 ∧ 1 ≤ dy ∧ dy ≤ daysInMonth y mo then
        .ok ⟨y, mo, dy⟩
      else .error (.valueError "Invalid isoformat string")
    else .error (.valueError "Invalid isoformat string")
  | _ => .error (.valueError "Invalid isoformat string")

/-- Python `datetime.date.fromisoformat`, restricted to the dashed
`YYYY-MM-DD` numeral form — the only form this program produces or stores;
anything else raises `ValueError`, as do out-of-range calendar fields. -/
def fromisoformat (s : String) : Except PyErr PyDate :=
  fromIsoParts (splitChar '-' s.data)

theorem fromisoformat_isoStr {d : PyDate} (hv : d.Valid) :
    fromisoformat (isoStr d) = .ok d := by
  obtain ⟨hy1, hy2, hm1, hm2, hd1, hd2⟩ := hv
  have hylt : d.year < 10 ^ 4 := by norm_num; omega
  have hmlt : d.month < 10 ^ 2 := by norm_num; omega
  have hdim : daysInMonth d.year d.month ≤ 31 := by
    unfold daysInMonth; split <;> [split; split] <;> omega
  have hdlt : d.day < 10 ^ 2 := by norm_num; omega
  have hnod : ∀ w n, ('-') ∉ padZeros w n := by
    intro w n hmem
    exact absurd rfl (isDigit_ne _ (padZeros_all_digit w n _ hmem)).2.2.1
  unfold fromisoformat isoStr
  rw [show (String.mk (padZeros 4 d.year ++
      '-' :: (padZeros 2 d.month ++ '-' :: padZeros 2 d.day))).data
    = padZeros 4 d.year ++ '-' :: (padZeros 2 d.month ++ '-' :: padZeros 2 d.day)
    from rfl]
  rw [splitChar_append_sep _ (hnod 4 d.year),
    splitChar_append_sep _ (hnod 2 d.month),
    splitChar_no_sep (hnod 2 d.day)]
  simp only [fromIsoParts]
  rw [if_pos]
  · rw [natOfFold_padZeros, natOfFold_padZeros, natOfFold_padZeros,
      if_pos (show 1 ≤ d.year ∧ 1 ≤ d.month ∧ d.month ≤ 12 ∧ 1 ≤ d.day ∧
        d.day ≤ daysInMonth d.year d.month from ⟨hy1, hm1, hm2, hd1, hd2⟩)]
  · refine ⟨padZeros_length (by norm_num) hylt,
      padZeros_length (by norm_num) hmlt,
      padZeros_length (by norm_num) hdlt, ?_, ?_, ?_⟩ <;>
      exact List.all_eq_true.mpr (fun c hc => padZeros_all_digit _ _ c hc)

end PyDate

/-! ### Python floats (modelled as exact decimal rationals) -/

/-- The least `k` with `den ∣ 10 ^ k`, searched over `0..den`; `none` exactly
when the denominator has a prime factor other than 2 and 5. -/
def decimalExp (den : Nat) : Option Nat :=
  (List.range (den + 1)).find? (fun k => decide (den ∣ 10 ^ k))

/-- A rational that is the exact value of a finite decimal numeral — the image
of the finite Python floats in this model. -/
def IsDec (q : ℚ) : Prop := q.den ∣ 10 ^ q.den

instance (q : ℚ) : Decidable (IsDec q) := by unfold IsDec; infer_instance

/-- A rational given in lowest terms as an explicit structure literal, so
that the kernel can evaluate with it. -/
def ratLit (n : Int) (d : Nat) (h1 : d ≠ 0 := by decide)
    (h2 : n.natAbs.Coprime d := by decide) : ℚ := ⟨n, d, h1, h2⟩

/-- Helper for `pyFloatStr`: render once the decimal exponent is known. -/
def pyFloatStrAux (q : ℚ) : Option Nat → String
  | none => "inf"
  | some k =>
    let m := q.num.natAbs * 10 ^ k / q.den
    let intPart := natChars (m / 10 ^ k)
    let frac := if k = 0 then ['0'] else padZeros k (m % 10 ^ k)
    String.mk ((if q.num < 0 then ['-'] else []) ++ intPart ++ '.' :: frac)

/-- Python `str` on a float value: optional sign, integer part, a dot, and the
fraction digits for the least sufficient decimal exponent (Python prints `X.0`
for integral values). Non-decimal rationals never arise as finite float
values; they render as a junk token. -/
def pyFloatStr (q : ℚ) : String :=
  pyFloatStrAux q (decimalExp q.den)

/-- Strip one leading sign character, Python-numeral style. -/
def stripSign (cs : List Char) : Bool × List Char :=
  match cs with
  | [] => (false, [])
  | c :: t => if c = '-' then (true, t) else if c = '+' then (false, t) else (false, cs)

/-- Helper for `float(s)`: interpret the dot-separated components of the
unsigned body, negating when `neg` is set. -/
def floatOfParts (neg : Bool) : List (List Char) → Option ℚ
  | [a] =>
    if a ≠ [] ∧ a.all Char.isDigit then
      some (if neg then -(mkRat (natOfFold a) 1) else mkRat (natOfFold a) 1)
    else none
  | [a, b] =>
    if (a ≠ [] ∨ b ≠ []) ∧ a.all Char.isDigit ∧ b.all Char.isDigit then
      let v : ℚ := mkRat (natOfFold a * 10 ^ b.length + natOfFold b) (10 ^ b.length)
      some (if neg then -v else v)
    else none
  | _ => none

/-- Python `float(s)` restricted to plain decimal numerals
`[sign] digits [. digits]` — the only numerals the ledger ever holds
(no exponent or infinity forms). -/
def pyFloatOfChars (cs : List Char) : Option ℚ :=
  floatOfParts (stripSign cs).1 (splitChar '.' (stripSign cs).2)

/-- Python `float(s)` (which strips surrounding whitespace, then parses). -/
def pyFloat (s : String) : Except PyErr ℚ :=
  match pyFloatOfChars (stripChars s.data) with
  | some q => .ok q
  | none => .error (.valueError "could not convert string to float")


theorem pyFloatOfChars_unsigned {ip fr : List Char} (hipne : ip ≠ [])
    (hipd : ∀ c ∈ ip, c.isDigit = true) (hfrd : ∀ c ∈ fr, c.isDigit = true) :
    pyFloatOfChars (ip ++ '.' :: fr)
      = some (mkRat (natOfFold ip * 10 ^ fr.length + natOfFold fr)
          (10 ^ fr.length)) := by
  have hdotip : '.' ∉ ip := fun hm => absurd (hipd '.' hm) (by decide)
  have hdotfr : '.' ∉ fr := fun hm => absurd (hfrd '.' hm) (by decide)
  have hsplit : splitChar '.' (ip ++ '.' :: fr) = [ip, fr] := by
    rw [splitChar_append_sep _ hdotip, splitChar_no_sep hdotfr]
  have hguard : (ip ≠ [] ∨ fr ≠ []) ∧ ip.all Char.isDigit = true ∧
      fr.all Char.isDigit = true :=
    ⟨Or.inl hipne, List.all_eq_true.mpr hipd, List.all_eq_true.mpr hfrd⟩
  rcases hip : ip with _ | ⟨c0, cr⟩
  · exact absurd hip hipne
  · have hc0 : c0.isDigit = true := hipd c0 (hip ▸ List.mem_cons_self c0 cr)
    have hc0m : ¬ c0 = '-' := fun h => absurd (h ▸ hc0) (by decide)
    have hc0p : ¬ c0 = '+' := fun h => absurd (h ▸ hc0) (by decide)
    subst hip
    have hss : stripSign (c0 :: (cr ++ '.' :: fr)) = (false, c0 :: (cr ++ '.' :: fr)) := by
      simp only [stripSign, if_neg hc0m, if_neg hc0p]
    show pyFloatOfChars (c0 :: (cr ++ '.' :: fr)) = _
    unfold pyFloatOfChars
    rw [hss]
    show floatOfParts false (splitChar '.' ((c0 :: cr) ++ '.' :: fr)) = _
    rw [hsplit]
    simp only [floatOfParts]
    rw [if_pos hguard]
    rfl

theorem pyFloatOfChars_negsign {ip fr : List Char} (hipne : ip ≠ [])
    (hipd : ∀ c ∈ ip, c.isDigit = true) (hfrd : ∀ c ∈ fr, c.isDigit = true) :
    pyFloatOfChars ('-' :: (ip ++ '.' :: fr))
      = some (-(mkRat (natOfFold ip * 10 ^ fr.length + natOfFold fr)
          (10 ^ fr.length))) := by
  have hdotip : '.' ∉ ip := fun hm => absurd (hipd '.' hm) (by decide)
  have hdotfr : '.' ∉ fr := fun hm => absurd (hfrd '.' hm) (by decide)
  have hsplit : splitChar '.' (ip ++ '.' :: fr) = [ip, fr] := by
    rw [splitChar_append_sep _ hdotip, splitChar_no_sep hdotfr]
  have hguard : (ip ≠ [] ∨ fr ≠ []) ∧ ip.all Char.isDigit = true ∧
      fr.all Char.isDigit = true :=
    ⟨Or.inl hipne, List.all_eq_true.mpr hipd, List.all_eq_true.mpr hfrd⟩
  have hss : stripSign ('-' :: (ip ++ '.' :: fr)) = (true, ip ++ '.' :: fr) := rfl
  unfold pyFloatOfChars
  rw [hss]
  show floatOfParts true (splitChar '.' (ip ++ '.' :: fr)) = _
  rw [hsplit]
  simp only [floatOfParts]
  rw [if_pos hguard]
  rfl

theorem pyFloat_pyFloatStr {q : ℚ} (hq : IsDec q) :
    pyFloat (pyFloatStr q) = .ok q := by
  obtain ⟨k, hk, hdvd⟩ : ∃ k, decimalExp q.den = some k ∧ q.den ∣ 10 ^ k := by
    cases h : decimalExp q.den with
    | none =>
      exfalso
      rw [decimalExp, List.find?_eq_none] at h
      have hmem := h q.den (List.mem_range.mpr (Nat.lt_succ_self _))
      simp only [decide_eq_true_eq] at hmem
      exact hmem hq
    | some k =>
      refine ⟨k, rfl, ?_⟩
      have := List.find?_some h
      simpa using this
  have hdpos : 0 < q.den := q.pos
  have hmd : (q.num.natAbs * 10 ^ k / q.den) * q.den = q.num.natAbs * 10 ^ k :=
    Nat.div_mul_cancel (hdvd.mul_left _)
  have hstr : pyFloatStr q = String.mk ((if q.num < 0 then ['-'] else []) ++
      natChars ((q.num.natAbs * 10 ^ k / q.den) / 10 ^ k) ++ '.' ::
      (if k = 0 then ['0']
       else padZeros k ((q.num.natAbs * 10 ^ k / q.den) % 10 ^ k))) := by
    unfold pyFloatStr
    rw [hk]
    rfl
  have hfrd : ∀ c ∈ (if k = 0 then ['0']
      else padZeros k ((q.num.natAbs * 10 ^ k / q.den) % 10 ^ k)),
      c.isDigit = true := by
    split
    · intro c hc
      rw [List.mem_singleton.mp hc]
      decide
    · exact padZeros_all_digit _ _
  have hipd := natChars_all_digit ((q.num.natAbs * 10 ^ k / q.den) / 10 ^ k)
  have hnows : stripChars (pyFloatStr q).data = (pyFloatStr q).data := by
    refine stripChars_eq_self_of_nows ?_
    rw [hstr]
    intro c hc
    rcases List.mem_append.mp hc with h1 | h2
    · rcases List.mem_append.mp h1 with ha | hb
      · obtain ⟨_, hc'⟩ := List.mem_ite_nil_right.mp ha
        rw [List.mem_singleton.mp hc']
        decide
      · exact (isDigit_ne _ (hipd c hb)).2.2.2.2
    · rcases List.mem_cons.mp h2 with hdot | hfr
      · rw [hdot]; decide
      · exact (isDigit_ne _ (hfrd c hfr)).2.2.2.2
  have habs : ((q.num.natAbs : ℕ) : ℚ) / ((q.den : ℕ) : ℚ) =
      if q.num < 0 then -q else q := by
    rcases lt_or_le q.num 0 with hneg | hpos
    · rw [if_pos hneg]
      have h1 : ((q.num.natAbs : ℕ) : ℚ) = -((q.num : ℤ) : ℚ) := by
        rw [Int.cast_natAbs, abs_of_neg hneg, Int.cast_neg]
      rw [h1, neg_div, Rat.num_div_den]
    · rw [if_neg (not_lt.mpr hpos)]
      have h1 : ((q.num.natAbs : ℕ) : ℚ) = ((q.num : ℤ) : ℚ) := by
        rw [Int.cast_natAbs, abs_of_nonneg hpos]
      rw [h1, Rat.num_div_den]
  have hmk : ∀ A B L : Nat, (mkRat ((A : Int) * 10 ^ L + (B : Int)) (10 ^ L) : ℚ)
      = ((A * 10 ^ L + B : ℕ) : ℚ) / (((10 : ℕ) ^ L : ℕ) : ℚ) := by
    intro A B L
    rw [Rat.mkRat_eq_divInt, Rat.divInt_eq_div]
    push_cast
    ring
  have hE : ((natOfFold (natChars ((q.num.natAbs * 10 ^ k / q.den) / 10 ^ k)) *
        10 ^ (if k = 0 then ['0'] else
          padZeros k ((q.num.natAbs * 10 ^ k / q.den) % 10 ^ k)).length +
        natOfFold (if k = 0 then ['0'] else
          padZeros k ((q.num.natAbs * 10 ^ k / q.den) % 10 ^ k)) : ℕ) : ℚ) /
      (((10 : ℕ) ^ (if k = 0 then ['0'] else
          padZeros k ((q.num.natAbs * 10 ^ k / q.den) % 10 ^ k)).length : ℕ) : ℚ)
      = ((q.num.natAbs : ℕ) : ℚ) / ((q.den : ℕ) : ℚ) := by
    rw [natOfFold_natChars]
    by_cases hk0 : k = 0
    · subst hk0
      have hd1 : q.den = 1 := Nat.dvd_one.mp (by simpa using hdvd)
      have h0 : natOfFold (['0'] : List Char) = 0 := by decide
      simp [hd1, h0]
    · have hklt : 0 < 10 ^ k := pow_pos (by norm_num) k
      have hlen : (padZeros k ((q.num.natAbs * 10 ^ k / q.den) % 10 ^ k)).length
          = k := padZeros_length (Nat.one_le_iff_ne_zero.mpr hk0)
          (Nat.mod_lt _ hklt)
      simp only [if_neg hk0, hlen, natOfFold_padZeros]
      have hsum : (q.num.natAbs * 10 ^ k / q.den) / 10 ^ k * 10 ^ k +
          (q.num.natAbs * 10 ^ k / q.den) % 10 ^ k
          = q.num.natAbs * 10 ^ k / q.den := by
        rw [mul_comm]
        exact Nat.div_add_mod _ _
      rw [hsum, div_eq_div_iff (by positivity) (Nat.cast_ne_zero.mpr hdpos.ne')]
      exact_mod_cast hmd
  have hval : pyFloatOfChars (pyFloatStr q).data = some q := by
    rcases lt_or_le q.num 0 with hneg | hpos
    · have hstr2 : (pyFloatStr q).data = '-' ::
          (natChars ((q.num.natAbs * 10 ^ k / q.den) / 10 ^ k) ++ '.' ::
          (if k = 0 then ['0']
           else padZeros k ((q.num.natAbs * 10 ^ k / q.den) % 10 ^ k))) := by
        rw [hstr, if_pos hneg]
        rfl
      rw [hstr2, pyFloatOfChars_negsign (natChars_ne_nil _) hipd hfrd, hmk, hE,
        habs, if_pos hneg, neg_neg]
    · have hstr2 : (pyFloatStr q).data =
          natChars ((q.num.natAbs * 10 ^ k / q.den) / 10 ^ k) ++ '.' ::
          (if k = 0 then ['0']
           else padZeros k ((q.num.natAbs * 10 ^ k / q.den) % 10 ^ k)) := by
        rw [hstr, if_neg (not_lt.mpr hpos)]
        rfl
      rw [hstr2, pyFloatOfChars_unsigned (natChars_ne_nil _) hipd hfrd, hmk, hE,
        habs, if_neg (not_lt.mpr hpos)]
  unfold pyFloat
  rw [hnows, hval]

/-! ### src/scanner/enum.py — `FileType` -/

inductive FileType where
  | unknown | pdf | jpg | png | gif | heic
  deriving DecidableEq, Repr

namespace FileType

/-- The string value of each member of the `StrEnum`. -/
def value : FileType → String
  | unknown => "unknown"
  | pdf => "pdf"
  | jpg => "jpg"
  | png => "png"
  | gif => "gif"
  | heic => "heic"

/-- Calling `FileType(value)`: member lookup by value, with `_missing_`
mapping the value `jpeg` to `JPG` and anything else to `UNKNOWN`. -/
def ofValue (v : String) : FileType :=
  if v = "unknown" then unknown
  else if v = "pdf" then pdf
  else if v = "jpg" then jpg
  else if v = "png" then png
  else if v = "gif" then gif
  else if v = "heic" then heic
  else if v = "jpeg" then jpg
  else unknown

/-- `FileType.suffix()`: a dot followed by the member value. -/
def suffix (ft : FileType) : String := "." ++ ft.value

/-- Python attribute access `FileType.NAME` on the enum class. The members
declared in src/scanner/enum.py are UNKNOWN, PDF, JPG, PNG, GIF and HEIC;
any other attribute name raises `AttributeError`. -/
def attr (name : String) : Except PyErr FileType :=
  if name = "UNKNOWN" then .ok unknown
  else if name = "PDF" then .ok pdf
  else if name = "JPG" then .ok jpg
  else if name = "PNG" then .ok png
  else if name = "GIF" then .ok gif
  else if name = "HEIC" then .ok heic
  else .error (.attributeError name)

end FileType

/-! ### src/scanner/record.py — `Record` and the ledger codec -/

/-- The `Record` dataclass. `filename` is the required field; the others
default to `None`, modelled with `Option`. The numeric fields are exact
rationals (see the header comment). -/
structure Record where
  filename : String
  filetype : Option FileType := none
  date : Option PyDate := none
  name : Option String := none
  total : Option ℚ := none
  tax : Option ℚ := none
  confidence : Option ℚ := none
  deriving DecidableEq, Repr

/-- Evaluate a list of fallible computations in order, stopping at the
first raised exception — the model of a Python list comprehension over a
fallible body. -/
def mapExcept {α β ε : Type} (f : α → Except ε β) : List α → Except ε (List β)
  | [] => .ok []
  | x :: xs => do
    let y ← f x
    let ys ← mapExcept f xs
    pure (y :: ys)

namespace Record

/-- The Python dict `{r.filename: r for r in records}` viewed as a lookup
function: later entries overwrite earlier ones. -/
def updRecord (m : String → Option Record) (r : Record) : String → Option Record :=
  fun k => if k = r.filename then some r else m k

/-- The dict comprehension `{record.filename: record for record in records}`
as a lookup function keyed by filename. -/
def toMap (records : List Record) : String → Option Record :=
  records.foldl updRecord (fun _ => none)

/-- The rendering `date.strftime("%m%d%Y")`: zero-padded month, day and
four-digit year. -/
def shortDateStr (d : PyDate) : String :=
  String.mk (padZeros 2 d.month ++ padZeros 2 d.day ++ padZeros 4 d.year)

/-- The normalization `name.strip().replace(" ", "").lower()`: strip
surrounding whitespace, delete every space, lower-case. -/
def shortNameStr (n : String) : String :=
  String.mk (((stripChars n.data).filter (fun c => ¬ c = ' ')).map Char.toLower)

/-- `short_date()`: `self.date.strftime("%m%d%Y")`; an `AttributeError`
when `date` is `None`. -/
def short_date (r : Record) : Except PyErr String :=
  match r.date with
  | none => .error (.attributeError "strftime")
  | some d => .ok (shortDateStr d)

/-- `short_name()`: `self.name.strip().replace(" ", "").lower()`; an
`AttributeError` when `name` is `None`. -/
def short_name (r : Record) : Except PyErr String :=
  match r.name with
  | none => .error (.attributeError "strip")
  | some n => .ok (shortNameStr n)

/-- Helper for `needs_new_filename`: the part after the confidence gate,
applied to `self.filename.split("_")`. The catch-all arm is the
`len(parts) != 3` early `True`; on three parts, `date == self.short_date()
and name == self.short_name()` evaluates left to right and short-circuits. -/
def needsParts (r : Record) : List String → Except PyErr Bool
  | [pd, pn, _] => do
    let d ← r.short_date
    if ¬ pd = d then pure true
    else do
      let n ← r.short_name
      pure (decide (¬ pn = n))
  | _ => pure true

/-- `needs_new_filename(confidence)`: `False` when the record's confidence
is below the threshold; a `TypeError` when the record's confidence is
`None` (Python cannot order `None` against a float); otherwise `True`
exactly when the filename is not canonical for the record's current data. -/
def needs_new_filename (r : Record) (confidence : ℚ) : Except PyErr Bool :=
  match r.confidence with
  | none => .error .typeError
  | some c =>
    if c < confidence then .ok false
    else needsParts r (pySplit '_' r.filename)

/-- `generate_new_filename(confidence)`. `uuid.uuid4().hex` is ambient
randomness, modelled as the extra `uuid4hex` argument, of which the code
uses the first eight characters. The f-string evaluates left to right:
`short_date()`, `short_name()`, the nonce, then `self.filetype.suffix()`
(an `AttributeError` when `filetype` is `None`). -/
def generate_new_filename (r : Record) (uuid4hex : String) (confidence : ℚ) :
    Except PyErr Record := do
  let b ← r.needs_new_filename confidence
  if b then do
    let d ← r.short_date
    let n ← r.short_name
    let sfx ← match r.filetype with
      | none => Except.error (PyErr.attributeError "suffix")
      | some ft => Except.ok ft.suffix
    pure { r with filename := d ++ "_" ++ n ++ "_" ++ String.mk (uuid4hex.data.take 8) ++ sfx }
  else pure r

/-- `str(None)` for an optional date field. -/
def optDateStr : Option PyDate → String
  | none => "None"
  | some d => PyDate.isoStr d

/-- `str(None)` for an optional float field. -/
def optFloatStr : Option ℚ → String
  | none => "None"
  | some q => pyFloatStr q

/-- `str(record)`: the comma-join of the six serialized fields, in the
order date, name, total, tax, confidence, filename. `str(x)` renders an
unset field as the literal `None`, but `",".join` raises a `TypeError`
when `name` itself is `None` (only strings can be joined). -/
def strRecord (r : Record) : Except PyErr String :=
  match r.name with
  | none => .error .typeError
  | some nm =>
    .ok (pyJoin ',' [optDateStr r.date, nm, optFloatStr r.total,
      optFloatStr r.tax, optFloatStr r.confidence, r.filename])

/-- `Record.header()`: the fixed comma-joined field names. -/
def headerStr : String :=
  pyJoin ',' ["date", "name", "total", "tax", "confidence", "filename"]

/-- `Record.generate_csv(records)`: the header line plus one line per
record, in the given order. -/
def generate_csv (records : List Record) : Except PyErr String := do
  let rows ← mapExcept strRecord records
  pure (headerStr ++ "\n" ++ pyJoin '\n' rows)

/-- Helper for `from_csv`: unpack `line.strip().split(",")` into exactly
six fields, else the unpacking `ValueError`; parse the typed fields in
Python argument order and derive the filetype from the filename's final
dot-separated component. -/
def fromFields : List String → Except PyErr Record
  | [d, n, t, tx, c, f] => do
    let dt ← PyDate.fromisoformat d
    let tot ← pyFloat t
    let tax ← pyFloat tx
    let conf ← pyFloat c
    pure { filename := f,
           filetype := some (FileType.ofValue ((pySplit '.' f).getLastD "")),
           date := some dt, name := some n, total := some tot,
           tax := some tax, confidence := some conf }
  | _ => .error (.valueError "unpack")

/-- `Record.from_csv(line)`. -/
def from_csv (line : String) : Except PyErr Record :=
  fromFields (pySplit ',' (pyStrip line))

/-- `Record.parse_csv(csv)`: strip the text, split into lines, demand the
exact header on the first line, parse each non-blank remaining line, and
build the dict keyed by filename (later rows overwrite earlier ones, as in
a Python dict comprehension). A split is never empty, so `lines[0]` cannot
fail; the nil arm below is unreachable. -/
def parse_csv (csv : String) : Except PyErr (String → Option Record) :=
  match pySplit '\n' (pyStrip csv) with
  | [] => .error (.valueError "Invalid CSV header")
  | l0 :: rest =>
    if ¬ l0 = headerStr then .error (.valueError "Invalid CSV header")
    else do
      let recs ← mapExcept from_csv (rest.filter (fun l => ¬ pyStrip l = ""))
      pure (toMap recs)

end Record

/-! ### src/scanner/scanner.py — `Scanner.scan` -/

/-- A directory entry as `Scanner.scan` observes it: its name, whether it
is a regular file, and the first bytes of its content (what
`read_magic_number` inspects). -/
structure DirEntry where
  name : String
  is_file : Bool
  head16 : List Nat
  deriving DecidableEq, Repr

/-- `pathlib.PurePath.suffix`: the final dot-suffix of the name, or empty
when the last dot is the first or last character of the name. -/
def pathSuffix (name : String) : String :=
  match name.data.reverse.findIdx? (fun c => c = '.') with
  | none => ""
  | some j =>
    let i := name.data.length - 1 - j
    if 0 < i ∧ i < name.data.length - 1 then String.mk (name.data.drop i) else ""

namespace Scanner

/-- `Scanner.read_magic_number(header)`: sniff the type from leading
bytes (PNG, JPEG, GIF87a/GIF89a, `%PDF-`, and `ftypheic` at offset 4). -/
def read_magic_number (header : List Nat) : FileType :=
  if [0x89, 0x50, 0x4E, 0x47, 0x0D, 0x0A, 0x1A, 0x0A].isPrefixOf header then .png
  else if [0xFF, 0xD8, 0xFF].isPrefixOf header then .jpg
  else if ([0x47, 0x49, 0x46, 0x38, 0x37, 0x61].isPrefixOf header ∨
      [0x47, 0x49, 0x46, 0x38, 0x39, 0x61].isPrefixOf header) then .gif
  else if [0x25, 0x50, 0x44, 0x46, 0x2D].isPrefixOf header then .pdf
  else if (header.drop 4).take 8 = [0x66, 0x74, 0x79, 0x70, 0x68, 0x65, 0x69, 0x63]
    then .heic
  else .unknown

/-- `Scanner.guess_file_type(file)`: `FileType(file.suffix[1:])`, falling
back to the magic-number sniff when that gives UNKNOWN. -/
def guess_file_type (e : DirEntry) : FileType :=
  let filetype := FileType.ofValue ((pathSuffix e.name).drop 1)
  if filetype = .unknown then read_magic_number e.head16 else filetype

/-- `Scanner.scan()` as a generator run to completion: the records yielded
before the generator finished or raised, paired with the terminating
exception, if any. `known` is the lazily loaded ledger
(`self.known_records`, a dict lookup) and `confidence` the scanner's
threshold. The body follows the source line by line; in particular the
first per-file test compares against the attribute `FileType.CSV`, an
enum member that src/scanner/enum.py does not declare. -/
def scan (known : String → Option Record) (confidence : ℚ) :
    List DirEntry → List Record × Option PyErr
  | [] => ([], none)
  | e :: rest =>
    if ¬ e.is_file then scan known confidence rest
    else
      let filetype := guess_file_type e
      match FileType.attr "CSV" with
      | .error err => ([], some err)
      | .ok csvMember =>
        if filetype = csvMember then scan known confidence rest
        else if filetype = .unknown then scan known confidence rest
        else
          match known e.name with
          | some kn =>
            match kn.confidence with
            | none => ([], some .typeError)
            | some c =>
              if c ≥ confidence then scan known confidence rest
              else
                let tl := scan known confidence rest
                (kn :: tl.1, tl.2)
          | none =>
            let tl := scan known confidence rest
            ({ filename := e.name, filetype := some filetype } :: tl.1, tl.2)

end Scanner

/-! ### src/main.py — `Main.generate_csv` -/

namespace Main

/-- The ordering comparison `existing.confidence < record.confidence` on
two optional floats: comparing `None` against anything raises `TypeError`. -/
def pyLtOpt : Option ℚ → Option ℚ → Except PyErr Bool
  | some a, some b => .ok (decide (a < b))
  | _, _ => .error .typeError

/-- The `--reconcile` branch of `Main.generate_csv`: for each fresh record
that has a ledger entry, keep the fresh record when strictly more
confident, else the ledger entry; fresh records without a ledger entry are
skipped (the walrus `if` has no else arm). -/
def reconcileMerge (known : String → Option Record) :
    List Record → Except PyErr (List Record)
  | [] => .ok []
  | r :: rest =>
    match known r.filename with
    | some existing => do
      let b ← pyLtOpt existing.confidence r.confidence
      let tl ← reconcileMerge known rest
      pure ((if b then r else existing) :: tl)
    | none => reconcileMerge known rest

/-- The record list `final` that `Main.generate_csv` serializes, as a
function of the two mode flags, the loaded ledger (`self.known_records`,
an insertion-ordered dict whose values are `known`) and the freshly
extracted records (`results.values()`). With `--reconcile` it is the
reconcile merge; with `--missing` it is the ledger's values followed by
the fresh records; otherwise it is exactly the fresh records. -/
def finalRecords (reconcile missing : Bool) (known records : List Record) :
    Except PyErr (List Record) :=
  if reconcile then reconcileMerge (Record.toMap known) records
  else if missing then .ok (known ++ records)
  else .ok records

/-- `Main.generate_csv(records)`: the newline-join of `str(record)` over
the `final` list (no header line is emitted here, unlike
`Record.generate_csv`). -/
def generate_csv (reconcile missing : Bool) (known records : List Record) :
    Except PyErr String := do
  let final ← finalRecords reconcile missing known records
  let rows ← mapExcept Record.strRecord final
  pure (pyJoin '\n' rows)

/-- The merge that the specification describes: the ledger overlaid with
the fresh records by filename key — a fresh record supersedes a stale
ledger entry of the same filename, and every other ledger entry survives.
Stated from the spec's words, for comparison with `Main.finalRecords`. -/
def specOverlay (known records : List Record) : String → Option Record :=
  fun k =>
    match Record.toMap records k with
    | some r => some r
    | none => Record.toMap known k

end Main

/-! ### Lookup lemmas for the filename-keyed dict -/

theorem foldl_updRecord (b : List Record) (init : String → Option Record)
    (k : String) :
    (b.foldl Record.updRecord init) k
      = match Record.toMap b k with
        | some r => some r
        | none => init k := by
  induction b generalizing init with
  | nil => simp [Record.toMap]
  | cons r t ih =>
    show (t.foldl Record.updRecord (Record.updRecord init r)) k = _
    rw [ih]
    have hrhs : Record.toMap (r :: t) k
        = (t.foldl Record.updRecord (Record.updRecord (fun _ => none) r)) k := rfl
    rw [hrhs, ih]
    cases h : Record.toMap t k with
    | none =>
      by_cases hk : k = r.filename <;> simp [Record.updRecord, hk]
    | some r2 => rfl

theorem toMap_append (a b : List Record) (k : String) :
    Record.toMap (a ++ b) k
      = match Record.toMap b k with
        | some r => some r
        | none => Record.toMap a k := by
  unfold Record.toMap
  rw [List.foldl_append]
  exact foldl_updRecord b _ k

theorem toMap_eq_getLast (rs : List Record) (k : String) :
    Record.toMap rs k = (rs.filter (fun r => r.filename = k)).getLast? := by
  induction rs using List.reverseRecOn with
  | nil => simp [Record.toMap]
  | append_singleton t r ih =>
    rw [toMap_append, List.filter_append]
    have h1 : Record.toMap [r] k = if k = r.filename then some r else none := rfl
    rw [h1]
    by_cases hk : k = r.filename
    · have hf : [r].filter (fun x => x.filename = k) = [r] := by
        simp [List.filter, hk.symm]
      rw [hf, if_pos hk, List.getLast?_concat]
    · have hf : [r].filter (fun x => x.filename = k) = [] := by
        have : decide (r.filename = k) = false :=
          decide_eq_false (fun hc => absurd hc.symm hk)
        simp [List.filter, this]
      rw [hf, if_neg hk, List.append_nil, ih]

/-! ### Canonical-filename characterization -/

/-- The specification's canonicity test, on the parts of
`filename.split("_")`: exactly three parts whose first two equal the given
`short_date()`/`short_name()` renderings. Stated from the spec's words. -/
def specCanonicalParts (sd sn : String) : List String → Bool
  | [pd, pn, _] => decide (pd = sd ∧ pn = sn)
  | _ => false

/-- The specification's canonicity predicate on a filename. -/
def specCanonical (fname sd sn : String) : Bool :=
  specCanonicalParts sd sn (pySplit '_' fname)

theorem exBind_ok {ε α β : Type} (a : α) (f : α → Except ε β) :
    ((Except.ok a : Except ε α) >>= f) = f a := rfl

theorem exBind_error {ε α β : Type} (e : ε) (f : α → Except ε β) :
    ((Except.error e : Except ε α) >>= f) = .error e := rfl

theorem exPure {ε α : Type} (a : α) : (pure a : Except ε α) = .ok a := rfl

theorem needsParts_eq_not_canonical (r : Record) (sd sn : String)
    (hsd : r.short_date = .ok sd) (hsn : r.short_name = .ok sn)
    (parts : List String) :
    r.needsParts parts = .ok (!(specCanonicalParts sd sn parts)) := by
  rcases parts with _ | ⟨pd, _ | ⟨pn, _ | ⟨z, _ | ⟨w, tl⟩⟩⟩⟩
  · simp [Record.needsParts, specCanonicalParts, exPure]
  · simp [Record.needsParts, specCanonicalParts, exPure]
  · simp [Record.needsParts, specCanonicalParts, exPure]
  · simp only [Record.needsParts, specCanonicalParts, hsd, hsn, exBind_ok]
    by_cases h1 : pd = sd
    · subst h1
      rw [if_neg (by simp)]
      by_cases h2 : pn = sn
      · subst h2
        simp [exPure]
      · simp [exPure, h2]
    · rw [if_pos h1]
      simp [exPure, h1]
  · simp [Record.needsParts, specCanonicalParts, exPure]

/-! ### Claims C6, C7, C8 — filename rules of `Record` -/

/-- C6: for every Record whose confidence is set and below the threshold,
`needs_new_filename(threshold)` returns `False`, whatever the shape of the
record's filename. -/
theorem claimC6_low_confidence_no_rename (r : Record) (t c : ℚ)
    (hc : r.confidence = some c) (hlt : c < t) :
    r.needs_new_filename t = .ok false := by
  simp only [Record.needs_new_filename, hc]
  rw [if_pos hlt]

/-- A concrete record with low confidence and a non-canonical filename. -/
def recLowConf : Record :=
  { filename := "no_underscore_shape_at-all.weird", confidence := some (ratLit 1 4) }

/-- C6 witness: confidence 1/4 against threshold 1/2. -/
theorem claimC6_witness :
    recLowConf.confidence = some (ratLit 1 4) ∧
    (ratLit 1 4) < (ratLit 1 2) ∧
    Record.needs_new_filename recLowConf (ratLit 1 2) = .ok false :=
  ⟨rfl, by decide,
    claimC6_low_confidence_no_rename _ _ _ rfl (by decide)⟩

/-- C7: a Record with confidence at or above the threshold whose filename
splits on underscore into exactly three parts, the first two equal to its
`short_date()` and `short_name()`, needs no new filename, and
`generate_new_filename` leaves the record unchanged for any nonce —
repeated filename generation never renames a correctly-named file. -/
theorem claimC7_canonical_idempotent (r : Record) (t c : ℚ) (dt : PyDate)
    (nm z : String) (hc : r.confidence = some c) (hge : ¬ c < t)
    (hd : r.date = some dt) (hn : r.name = some nm)
    (hsplit : pySplit '_' r.filename
      = [Record.shortDateStr dt, Record.shortNameStr nm, z]) :
    r.needs_new_filename t = .ok false ∧
    ∀ u : String, r.generate_new_filename u t = .ok r := by
  have hsd : r.short_date = .ok (Record.shortDateStr dt) := by
    simp [Record.short_date, hd]
  have hsn : r.short_name = .ok (Record.shortNameStr nm) := by
    simp [Record.short_name, hn]
  have hneeds : r.needs_new_filename t = .ok false := by
    simp only [Record.needs_new_filename, hc]
    rw [if_neg hge, hsplit, needsParts_eq_not_canonical r _ _ hsd hsn]
    simp [specCanonicalParts]
  refine ⟨hneeds, fun u => ?_⟩
  simp [Record.generate_new_filename, hneeds, exBind_ok, exPure]

/-- A concrete record whose filename is canonical for its data. -/
def recCanonical : Record :=
  { filename := "01152024_bestbuy_ab12cd34", filetype := some .pdf,
    date := some ⟨2024, 1, 15⟩, name := some "Best Buy",
    confidence := some (ratLit 93 100) }

/-- C7 witness: the canonically named record `01152024_bestbuy_ab12cd34`
at confidence 93/100 against threshold 4/5. -/
theorem claimC7_witness :
    pySplit '_' recCanonical.filename
      = [Record.shortDateStr ⟨2024, 1, 15⟩, Record.shortNameStr "Best Buy", "ab12cd34"] ∧
    ¬ (ratLit 93 100) < (ratLit 4 5) ∧
    Record.needs_new_filename recCanonical (ratLit 4 5) = .ok false ∧
    Record.generate_new_filename recCanonical "aaaabbbbccccdddd" (ratLit 4 5)
      = .ok recCanonical :=
  have h := claimC7_canonical_idempotent recCanonical
    (ratLit 4 5) (ratLit 93 100) ⟨2024, 1, 15⟩ "Best Buy" "ab12cd34"
    rfl (by decide) rfl rfl (by decide)
  ⟨by decide, by decide, h.1, h.2 "aaaabbbbccccdddd"⟩

/-- C8: a Record with date, name and filetype set, confidence at or above
the threshold and a non-canonical filename gets the filename
`short_date() ++ "_" ++ short_name() ++ "_" ++ nonce ++ suffix`, where the
nonce is the first eight characters of the uuid hex (hence eight lowercase
hex characters) and the suffix is the filetype's dot-suffix. -/
theorem claimC8_generated_filename_format (r : Record) (t c : ℚ) (dt : PyDate)
    (nm : String) (ft : FileType) (u : String)
    (hc : r.confidence = some c) (hge : ¬ c < t)
    (hd : r.date = some dt) (hn : r.name = some nm)
    (hft : r.filetype = some ft)
    (hnc : specCanonical r.filename (Record.shortDateStr dt)
      (Record.shortNameStr nm) = false)
    (hu : u.data.length = 32 ∧
      ∀ ch ∈ u.data, (ch.isDigit || ('a' ≤ ch && ch ≤ 'f')) = true) :
    r.generate_new_filename u t = .ok { r with
      filename := Record.shortDateStr dt ++ "_" ++ Record.shortNameStr nm ++ "_" ++
        String.mk (u.data.take 8) ++ ("." ++ ft.value) } ∧
    (u.data.take 8).length = 8 ∧
    ∀ ch ∈ u.data.take 8, (ch.isDigit || ('a' ≤ ch && ch ≤ 'f')) = true := by
  have hsd : r.short_date = .ok (Record.shortDateStr dt) := by
    simp [Record.short_date, hd]
  have hsn : r.short_name = .ok (Record.shortNameStr nm) := by
    simp [Record.short_name, hn]
  have hneeds : r.needs_new_filename t = .ok true := by
    simp only [Record.needs_new_filename, hc]
    rw [if_neg hge, needsParts_eq_not_canonical r _ _ hsd hsn]
    have hcan : specCanonicalParts (Record.shortDateStr dt) (Record.shortNameStr nm)
        (pySplit '_' r.filename) = false := hnc
    rw [hcan]
    rfl
  refine ⟨?_, ?_, ?_⟩
  · simp [Record.generate_new_filename, hneeds, hsd, hsn, hft,
      FileType.suffix, exBind_ok, exPure]
  · rw [List.length_take, hu.1]
    decide
  · intro ch hch
    exact hu.2 ch (List.mem_of_mem_take hch)

/-- The spec's worked example: extraction result date 2024-01-15, merchant
`Best Buy`, confidence 93/100, original filename `receipt.pdf`. -/
def recExample : Record :=
  { filename := "receipt.pdf", filetype := some .pdf,
    date := some ⟨2024, 1, 15⟩, name := some "Best Buy",
    confidence := some (ratLit 93 100) }

/-- C8 witness: with threshold 4/5, the generated name is
`01152024_bestbuy_a1b2c3d4.pdf`. -/
theorem claimC8_witness :
    specCanonical recExample.filename (Record.shortDateStr ⟨2024, 1, 15⟩)
      (Record.shortNameStr "Best Buy") = false ∧
    Record.generate_new_filename recExample "a1b2c3d4e5f6a7b8c9d0a1b2c3d4e5f6"
      (ratLit 4 5)
      = .ok { recExample with filename := "01152024_bestbuy_a1b2c3d4.pdf" } :=
  have h := claimC8_generated_filename_format recExample
    (ratLit 4 5) (ratLit 93 100) ⟨2024, 1, 15⟩ "Best Buy" FileType.pdf
    "a1b2c3d4e5f6a7b8c9d0a1b2c3d4e5f6"
    rfl (by decide) rfl rfl rfl (by decide) ⟨by decide, by decide⟩
  ⟨by decide, by rw [h.1]; decide⟩

/-! ### Claims C3, C4, C5 — `Scanner.scan` -/

/-- The ledger entry for claim C3: `r.pdf` known at confidence 1/5. -/
def recKnownLow : Record :=
  { filename := "r.pdf", filetype := some .pdf, date := some ⟨2024, 1, 15⟩,
    name := some "a", total := some (ratLit 1 1), tax := some (ratLit 1 1),
    confidence := some (ratLit 1 5) }

/-- C3 (evidence of the code defect): scanning a directory that holds one
regular file `r.pdf` whose ledger entry has confidence 1/5, with threshold
1/2, yields no record and raises `AttributeError` on the undeclared enum
member `FileType.CSV` — instead of yielding the existing low-confidence
record for reprocessing as the claim states. -/
theorem claimC3_scan_raises_attributeError :
    Scanner.scan (Record.toMap [recKnownLow]) (ratLit 1 2)
      [{ name := "r.pdf", is_file := true, head16 := [0x25, 0x50, 0x44, 0x46, 0x2D] }]
      = ([], some (.attributeError "CSV")) := by
  decide

/-- C4 (evidence of the code defect): scanning a directory that holds one
regular file `receipt.pdf` with an empty ledger yields no record and
raises `AttributeError` on the undeclared enum member `FileType.CSV` —
instead of yielding one fresh Record with filetype pdf as the claim
states. -/
theorem claimC4_scan_raises_attributeError :
    Scanner.scan (Record.toMap []) (ratLit 1 2)
      [{ name := "receipt.pdf", is_file := true, head16 := [0x25, 0x50, 0x44, 0x46, 0x2D] }]
      = ([], some (.attributeError "CSV")) := by
  decide

/-- C5 (evidence of the code defect): scanning a directory that holds the
ledger file `records.csv` itself (sniffed type UNKNOWN: the extension
`csv` is no declared member value and the text bytes match no magic
number) raises `AttributeError` on the undeclared enum member
`FileType.CSV` — the entry is not skipped silently as the claim states,
though no record is ever yielded. -/
theorem claimC5_scan_raises_attributeError :
    Scanner.scan (Record.toMap []) (ratLit 1 2)
      [{ name := "records.csv", is_file := true,
         head16 := [0x64, 0x61, 0x74, 0x65, 0x2C] }]
      = ([], some (.attributeError "CSV")) := by
  decide

/-! ### Claim C1 — the persistence merge of `Main.generate_csv` -/

/-- The ledger entry used in the C1 counterexample. -/
def recLedgerC1 : Record :=
  { filename := "a.jpg", filetype := some .jpg, date := some ⟨2024, 1, 15⟩,
    name := some "a", total := some (ratLit 1 1), tax := some (ratLit 1 1),
    confidence := some (ratLit 9 10) }

/-- C1 (counterexample): with both mode flags off — the default run — and
no freshly extracted records, the serialized record set is empty: the
ledger entry `a.jpg` is dropped rather than kept, so the persisted set is
not the ledger overlaid with the fresh records. -/
theorem claimC1_counterexample :
    Main.finalRecords false false [recLedgerC1] [] = .ok [] ∧
    Record.toMap [] recLedgerC1.filename = none ∧
    Main.specOverlay [recLedgerC1] [] recLedgerC1.filename = some recLedgerC1 := by
  refine ⟨rfl, rfl, ?_⟩
  decide

/-- C1 (amended): in missing-records mode the final record list is the
ledger's entries followed by the fresh records, so keyed by filename —
later rows superseding earlier ones — it is exactly the overlay the
specification describes: every filename of a fresh record maps to that
fresh record and every other ledger entry survives. In the default mode
the final list is exactly the fresh records, so ledger-only entries are
dropped. -/
theorem claimC1_missing_mode_overlay (known records : List Record) :
    (Main.finalRecords false true known records).map Record.toMap
      = .ok (Main.specOverlay known records) ∧
    Main.finalRecords false false known records = .ok records := by
  constructor
  · show Except.ok (Record.toMap (known ++ records)) = _
    refine congrArg Except.ok (funext fun k => ?_)
    rw [toMap_append]
    rfl
  · rfl

/-! ### Claims C9, C10 — `Record.parse_csv` -/

theorem fromFields_len_ne_six {fs : List String} (h : fs.length ≠ 6) :
    Record.fromFields fs = .error (.valueError "unpack") := by
  rcases fs with _ | ⟨a, _ | ⟨b, _ | ⟨c, _ | ⟨d, _ | ⟨e, _ | ⟨f, tl⟩⟩⟩⟩⟩⟩
  · rfl
  · rfl
  · rfl
  · rfl
  · rfl
  · rfl
  · cases tl with
    | nil => exact absurd rfl h
    | cons g tl2 => rfl

theorem mapExcept_error {α β ε : Type} (f : α → Except ε β) {l : List α} {x : α}
    (hx : x ∈ l) {e : ε} (he : f x = .error e) :
    ∃ e2, mapExcept f l = .error e2 := by
  induction l with
  | nil => cases hx
  | cons y t ih =>
    rcases List.mem_cons.mp hx with rfl | hmem
    · exact ⟨e, by simp [mapExcept, he, exBind_error]⟩
    · cases hf : f y with
      | error e3 => exact ⟨e3, by simp [mapExcept, hf, exBind_error]⟩
      | ok b =>
        obtain ⟨e2, h2⟩ := ih hmem
        exact ⟨e2, by simp [mapExcept, hf, h2, exBind_ok, exBind_error]⟩

/-- C9 (amended): parsing raises a format error whenever the first line of
the whitespace-stripped ledger text differs from the exact expected
header, and raises some format error whenever any subsequent non-blank
line does not split on commas into exactly six fields. -/
theorem claimC9_parse_errors (text : String) :
    ((pySplit '\n' (pyStrip text)).headD "" ≠ Record.headerStr →
      Record.parse_csv text = .error (.valueError "Invalid CSV header")) ∧
    (∀ line ∈ (pySplit '\n' (pyStrip text)).tail.filter
        (fun l => ¬ pyStrip l = ""),
      (pySplit ',' (pyStrip line)).length ≠ 6 →
      ∃ e, Record.parse_csv text = .error e) := by
  cases hs : pySplit '\n' (pyStrip text) with
  | nil =>
    constructor
    · intro _
      simp [Record.parse_csv, hs]
    · intro line hline hlen
      simp at hline
  | cons l0 rest =>
    constructor
    · intro hne
      simp only [List.headD_cons] at hne
      simp only [Record.parse_csv, hs]
      rw [if_pos hne]
    · intro line hline hlen
      simp only [List.tail_cons] at hline
      by_cases hl0 : l0 = Record.headerStr
      · have hline_err : Record.from_csv line = .error (.valueError "unpack") := by
          unfold Record.from_csv
          exact fromFields_len_ne_six hlen
        obtain ⟨e2, h2⟩ := mapExcept_error Record.from_csv hline hline_err
        refine ⟨e2, ?_⟩
        simp only [Record.parse_csv, hs]
        rw [if_neg (by simp [hl0])]
        show (mapExcept Record.from_csv
          (rest.filter (fun l => ¬ pyStrip l = "")) >>=
          fun recs => pure (Record.toMap recs)) = Except.error e2
        rw [h2, exBind_error]
      · refine ⟨.valueError "Invalid CSV header", ?_⟩
        simp only [Record.parse_csv, hs]
        rw [if_pos hl0]

/-- C9 (counterexample to the claim as stated): a ledger text whose first
line is blank — so differs from the expected header — parses without any
error, because `parse_csv` strips the text before the header test. -/
theorem claimC9_counterexample :
    (pySplit '\n' "\ndate,name,total,tax,confidence,filename").headD ""
      ≠ Record.headerStr ∧
    Record.parse_csv "\ndate,name,total,tax,confidence,filename"
      = .ok (Record.toMap []) :=
  ⟨by decide, rfl⟩

/-- C9 witness: the header `foo,bar` raises the header error, and a ledger
with a two-field row raises some format error. -/
theorem claimC9_witness :
    Record.parse_csv "foo,bar" = .error (.valueError "Invalid CSV header") ∧
    (∃ e, Record.parse_csv
      "date,name,total,tax,confidence,filename\na,b" = .error e) :=
  ⟨(claimC9_parse_errors "foo,bar").1 (by decide),
   (claimC9_parse_errors "date,name,total,tax,confidence,filename\na,b").2
     "a,b" (by decide) (by decide)⟩

/-- C10: a well-formed ledger text — exact header on the first stripped
line and every non-blank row parsing — with two or more rows bearing the
same filename parses without error, and the returned mapping binds that
filename to the Record of the last such row; the earlier duplicates are
silently dropped. -/
theorem claimC10_parse_csv_last_wins (text : String) (rs : List Record)
    (k l0 : String) (rest : List String)
    (hsplit : pySplit '\n' (pyStrip text) = l0 :: rest)
    (hhead : l0 = Record.headerStr)
    (hrows : mapExcept Record.from_csv
      (rest.filter (fun l => ¬ pyStrip l = "")) = .ok rs)
    (_hdup : 2 ≤ (rs.filter (fun r => r.filename = k)).length) :
    Record.parse_csv text = .ok (Record.toMap rs) ∧
    Record.toMap rs k = (rs.filter (fun r => r.filename = k)).getLast? := by
  constructor
  · simp only [Record.parse_csv, hsplit]
    rw [if_neg (by simp [hhead])]
    show (mapExcept Record.from_csv
      (rest.filter (fun l => ¬ pyStrip l = "")) >>=
      fun recs => pure (Record.toMap recs)) = _
    rw [hrows, exBind_ok, exPure]
  · exact toMap_eq_getLast rs k

/-- The two records of the C10 witness ledger, both named `x.jpg`. -/
def recDupA : Record :=
  { filename := "x.jpg", filetype := some .jpg, date := some ⟨2024, 1, 15⟩,
    name := some "a", total := some (ratLit 1 1), tax := some (ratLit 1 1),
    confidence := some (ratLit 1 2) }

/-- The later duplicate row's record in the C10 witness ledger. -/
def recDupB : Record :=
  { filename := "x.jpg", filetype := some .jpg, date := some ⟨2024, 1, 16⟩,
    name := some "b", total := some (ratLit 2 1), tax := some (ratLit 2 1),
    confidence := some (ratLit 7 10) }

/-- C10 witness: a concrete ledger with two rows for `x.jpg`; parsing
succeeds and the map binds `x.jpg` to the second row's record. -/
theorem claimC10_witness :
    mapExcept Record.from_csv
      (["2024-01-15,a,1.0,1.0,0.5,x.jpg",
        "2024-01-16,b,2.0,2.0,0.7,x.jpg"].filter (fun l => ¬ pyStrip l = ""))
      = .ok [recDupA, recDupB] ∧
    2 ≤ ([recDupA, recDupB].filter (fun r => r.filename = "x.jpg")).length ∧
    Record.parse_csv
      "date,name,total,tax,confidence,filename\n2024-01-15,a,1.0,1.0,0.5,x.jpg\n2024-01-16,b,2.0,2.0,0.7,x.jpg"
      = .ok (Record.toMap [recDupA, recDupB]) ∧
    Record.toMap [recDupA, recDupB] "x.jpg" = some recDupB :=
  have h := claimC10_parse_csv_last_wins
    "date,name,total,tax,confidence,filename\n2024-01-15,a,1.0,1.0,0.5,x.jpg\n2024-01-16,b,2.0,2.0,0.7,x.jpg"
    [recDupA, recDupB] "x.jpg" "date,name,total,tax,confidence,filename"
    ["2024-01-15,a,1.0,1.0,0.5,x.jpg", "2024-01-16,b,2.0,2.0,0.7,x.jpg"]
    (by decide) rfl (by decide) (by decide)
  ⟨by decide, by decide, h.1, by rw [h.2]; decide⟩

/-! ### Claim C2 — the ledger round-trip -/

theorem strMk_data (s : String) : String.mk s.data = s := rfl

theorem takeOne_append {l1 l2 : List Char} (h : l1 ≠ []) :
    (l1 ++ l2).take 1 = l1.take 1 := by
  cases l1 with
  | nil => exact absurd rfl h
  | cons x xs => rfl

theorem decimalExp_of_isDec {q : ℚ} (hq : IsDec q) :
    ∃ k, decimalExp q.den = some k ∧ q.den ∣ 10 ^ k := by
  cases h : decimalExp q.den with
  | none =>
    exfalso
    rw [decimalExp, List.find?_eq_none] at h
    have hmem := h q.den (List.mem_range.mpr (Nat.lt_succ_self _))
    simp only [decide_eq_true_eq] at hmem
    exact hmem hq
  | some k =>
    refine ⟨k, rfl, ?_⟩
    have := List.find?_some h
    simpa using this

theorem isoStr_mem {dt : PyDate} {c : Char}
    (hc : c ∈ (PyDate.isoStr dt).data) : c.isDigit = true ∨ c = '-' := by
  rw [show (PyDate.isoStr dt).data
    = padZeros 4 dt.year ++ '-' :: (padZeros 2 dt.month ++ '-' :: padZeros 2 dt.day)
    from rfl] at hc
  rcases List.mem_append.mp hc with h1 | h2
  · exact Or.inl (padZeros_all_digit _ _ c h1)
  · rcases List.mem_cons.mp h2 with rfl | h3
    · exact Or.inr rfl
    · rcases List.mem_append.mp h3 with h4 | h5
      · exact Or.inl (padZeros_all_digit _ _ c h4)
      · rcases List.mem_cons.mp h5 with rfl | h6
        · exact Or.inr rfl
        · exact Or.inl (padZeros_all_digit _ _ c h6)

theorem isoStr_no_sep (dt : PyDate) :
    ',' ∉ (PyDate.isoStr dt).data ∧ '\n' ∉ (PyDate.isoStr dt).data := by
  constructor <;> intro hmem <;> rcases isoStr_mem hmem with h | h
  · exact absurd rfl (isDigit_ne _ h).1
  · exact absurd h (by decide)
  · exact absurd rfl (isDigit_ne _ h).2.1
  · exact absurd h (by decide)

theorem isoStr_head (dt : PyDate) :
    ∀ c ∈ (PyDate.isoStr dt).data.take 1, c.isDigit = true := by
  intro c hc
  rw [show (PyDate.isoStr dt).data
    = padZeros 4 dt.year ++ '-' :: (padZeros 2 dt.month ++ '-' :: padZeros 2 dt.day)
    from rfl, takeOne_append (padZeros_ne_nil 4 dt.year)] at hc
  exact padZeros_all_digit _ _ c (List.mem_of_mem_take hc)

theorem pyFloatStr_mem {q : ℚ} (hq : IsDec q) {c : Char}
    (hc : c ∈ (pyFloatStr q).data) :
    c.isDigit = true ∨ c = '-' ∨ c = '.' := by
  obtain ⟨k, hk, hdvd⟩ := decimalExp_of_isDec hq
  rw [show pyFloatStr q = pyFloatStrAux q (some k) from by
    unfold pyFloatStr; rw [hk]] at hc
  rw [show (pyFloatStrAux q (some k)).data
    = (if q.num < 0 then ['-'] else []) ++
      natChars ((q.num.natAbs * 10 ^ k / q.den) / 10 ^ k) ++ '.' ::
      (if k = 0 then ['0']
       else padZeros k ((q.num.natAbs * 10 ^ k / q.den) % 10 ^ k)) from rfl] at hc
  rcases List.mem_append.mp hc with h1 | h2
  · rcases List.mem_append.mp h1 with ha | hb
    · obtain ⟨_, hc'⟩ := List.mem_ite_nil_right.mp ha
      exact Or.inr (Or.inl (List.mem_singleton.mp hc'))
    · exact Or.inl (natChars_all_digit _ c hb)
  · rcases List.mem_cons.mp h2 with rfl | hfr
    · exact Or.inr (Or.inr rfl)
    · revert hfr
      split
      · intro hfr
        rw [List.mem_singleton.mp hfr]
        left
        decide
      · intro hfr
        exact Or.inl (padZeros_all_digit _ _ c hfr)

theorem pyFloatStr_no_sep {q : ℚ} (hq : IsDec q) :
    ',' ∉ (pyFloatStr q).data ∧ '\n' ∉ (pyFloatStr q).data := by
  constructor <;> intro hmem <;> rcases pyFloatStr_mem hq hmem with h | h | h
  · exact absurd rfl (isDigit_ne _ h).1
  · exact absurd h (by decide)
  · exact absurd h (by decide)
  · exact absurd rfl (isDigit_ne _ h).2.1
  · exact absurd h (by decide)
  · exact absurd h (by decide)

/-- The conditions under which a record survives the ledger round-trip:
every field set, a date representable as a Python date, numeric fields
that are finite decimal values, no comma or newline embedded in the name
or the filename, a nonempty filename without trailing whitespace, and a
filetype that agrees with the filename's final dot-suffix (serialization
does not store the filetype; parsing re-derives it from the filename). -/
def roundTrippableB (r : Record) : Bool :=
  (match r.date with
    | none => false
    | some dt => decide dt.Valid) &&
  (match r.name with
    | none => false
    | some nm => decide (',' ∉ nm.data ∧ '\n' ∉ nm.data)) &&
  (match r.total with | none => false | some q => decide (IsDec q)) &&
  (match r.tax with | none => false | some q => decide (IsDec q)) &&
  (match r.confidence with | none => false | some q => decide (IsDec q)) &&
  decide (',' ∉ r.filename.data ∧ '\n' ∉ r.filename.data) &&
  (match r.filename.data.reverse with
    | [] => false
    | c :: _ => !c.isWhitespace) &&
  decide (r.filetype = some (FileType.ofValue ((pySplit '.' r.filename).getLastD "")))

theorem roundTrippable_fields {r : Record} (h : roundTrippableB r = true) :
    ∃ dt nm qt qx qc, r.date = some dt ∧ dt.Valid ∧ r.name = some nm ∧
      (',' ∉ nm.data ∧ '\n' ∉ nm.data) ∧
      r.total = some qt ∧ IsDec qt ∧ r.tax = some qx ∧ IsDec qx ∧
      r.confidence = some qc ∧ IsDec qc ∧
      (',' ∉ r.filename.data ∧ '\n' ∉ r.filename.data) ∧
      r.filename.data ≠ [] ∧
      (∀ c ∈ r.filename.data.reverse.take 1, c.isWhitespace = false) ∧
      r.filetype = some (FileType.ofValue ((pySplit '.' r.filename).getLastD "")) := by
  simp only [roundTrippableB, Bool.and_eq_true] at h
  obtain ⟨⟨⟨⟨⟨⟨⟨h1, h2⟩, h3⟩, h4⟩, h5⟩, h6⟩, h7⟩, h8⟩ := h
  cases hdt : r.date with
  | none => rw [hdt] at h1; simp at h1
  | some dt =>
  rw [hdt] at h1
  simp only [decide_eq_true_eq] at h1
  cases hnm : r.name with
  | none => rw [hnm] at h2; simp at h2
  | some nm =>
  rw [hnm] at h2
  simp only [decide_eq_true_eq] at h2
  cases hqt : r.total with
  | none => rw [hqt] at h3; simp at h3
  | some qt =>
  rw [hqt] at h3
  simp only [decide_eq_true_eq] at h3
  cases hqx : r.tax with
  | none => rw [hqx] at h4; simp at h4
  | some qx =>
  rw [hqx] at h4
  simp only [decide_eq_true_eq] at h4
  cases hqc : r.confidence with
  | none => rw [hqc] at h5; simp at h5
  | some qc =>
  rw [hqc] at h5
  simp only [decide_eq_true_eq] at h5
  simp only [decide_eq_true_eq] at h6 h8
  cases hrev : r.filename.data.reverse with
  | nil => rw [hrev] at h7; simp at h7
  | cons c0 cr =>
  rw [hrev] at h7
  simp only [Bool.not_eq_eq_eq_not, Bool.not_true] at h7
  refine ⟨dt, nm, qt, qx, qc, rfl, h1, rfl, h2, rfl, h3, rfl, h4, rfl, h5, h6,
    ?_, ?_, h8⟩
  · intro hnil
    rw [hnil] at hrev
    simp at hrev
  · intro c hc
    rw [List.take_succ_cons, List.take_zero, List.mem_singleton] at hc
    rw [hc]
    exact h7

/-- The serialized row of a record: what `str(record)` returns when the
name field is set. -/
def rowOf (r : Record) : String :=
  pyJoin ',' [Record.optDateStr r.date, r.name.getD "", Record.optFloatStr r.total,
    Record.optFloatStr r.tax, Record.optFloatStr r.confidence, r.filename]

theorem strRecord_eq_rowOf {r : Record} {nm : String} (hn : r.name = some nm) :
    Record.strRecord r = .ok (rowOf r) := by
  simp [Record.strRecord, rowOf, hn]

theorem mapExcept_ok_of {α β ε : Type} (f : α → Except ε β) (g : α → β)
    {l : List α} (h : ∀ x ∈ l, f x = .ok (g x)) :
    mapExcept f l = .ok (l.map g) := by
  induction l with
  | nil => rfl
  | cons x t ih =>
    show (f x >>= fun y => mapExcept f t >>= fun ys => pure (y :: ys)) = _
    rw [h x (List.mem_cons_self x t), exBind_ok,
      ih (fun y hy => h y (List.mem_cons_of_mem x hy)), exBind_ok, exPure]
    rfl

theorem mapExcept_map_id {α β ε : Type} (f : β → Except ε α) (g : α → β)
    {l : List α} (h : ∀ x ∈ l, f (g x) = .ok x) :
    mapExcept f (l.map g) = .ok l := by
  induction l with
  | nil => rfl
  | cons x t ih =>
    show (f (g x) >>= fun y => mapExcept f (t.map g) >>= fun ys => pure (y :: ys)) = _
    rw [h x (List.mem_cons_self x t), exBind_ok,
      ih (fun y hy => h y (List.mem_cons_of_mem x hy)), exBind_ok, exPure]

theorem joinChar_cons_ne_nil {c : Char} {y : List Char} (ys : List (List Char))
    (hy : y ≠ []) : joinChar c (y :: ys) ≠ [] := by
  cases ys with
  | nil => exact hy
  | cons z zs =>
    show y ++ c :: joinChar c (z :: zs) ≠ []
    simp

theorem joinChar_take_one {c : Char} {x : List Char} (xss : List (List Char))
    (hx : x ≠ []) : (joinChar c (x :: xss)).take 1 = x.take 1 := by
  cases xss with
  | nil => rfl
  | cons y ys =>
    show (x ++ c :: joinChar c (y :: ys)).take 1 = x.take 1
    exact takeOne_append hx

theorem joinChar_reverse_take_one {c : Char} (P : Char → Prop) :
    ∀ xss : List (List Char), xss ≠ [] → (∀ l ∈ xss, l ≠ []) →
    (∀ l ∈ xss, ∀ ch ∈ l.reverse.take 1, P ch) →
    ∀ ch ∈ (joinChar c xss).reverse.take 1, P ch := by
  intro xss
  induction xss with
  | nil => intro h; exact absurd rfl h
  | cons x t ih =>
    intro _ hne hP ch hch
    cases t with
    | nil => exact hP x (List.mem_cons_self x []) ch hch
    | cons y ys =>
      have hJ : joinChar c (y :: ys) ≠ [] :=
        joinChar_cons_ne_nil ys (hne y (List.mem_cons_of_mem x (List.mem_cons_self y ys)))
      rw [show joinChar c (x :: y :: ys) = x ++ c :: joinChar c (y :: ys) from rfl,
        List.reverse_append, List.reverse_cons,
        takeOne_append (by simp), takeOne_append (by simpa using hJ)] at hch
      exact ih (by simp) (fun l hl => hne l (List.mem_cons_of_mem x hl))
        (fun l hl => hP l (List.mem_cons_of_mem x hl)) ch hch

theorem mem_joinChar {c ch : Char} : ∀ {xss : List (List Char)},
    ch ∈ joinChar c xss → ch = c ∨ ∃ l ∈ xss, ch ∈ l := by
  intro xss
  induction xss with
  | nil => intro h; simp [joinChar] at h
  | cons x t ih =>
    intro hch
    cases t with
    | nil => exact Or.inr ⟨x, List.mem_cons_self x [], hch⟩
    | cons y ys =>
      rcases List.mem_append.mp hch with h1 | h2
      · exact Or.inr ⟨x, List.mem_cons_self x (y :: ys), h1⟩
      · rcases List.mem_cons.mp h2 with rfl | h3
        · exact Or.inl rfl
        · rcases ih h3 with h4 | ⟨l, hl, hmem⟩
          · exact Or.inl h4
          · exact Or.inr ⟨l, List.mem_cons_of_mem x hl, hmem⟩

theorem joinChar_cons_of_ne {c : Char} (x : List Char) {l : List (List Char)}
    (hl : l ≠ []) : joinChar c (x :: l) = x ++ c :: joinChar c l := by
  cases l with
  | nil => exact absurd rfl hl
  | cons y ys => rfl

theorem joinChar_append_singleton_ne_nil {c : Char} {f : List Char} (hf : f ≠ []) :
    ∀ xss : List (List Char), joinChar c (xss ++ [f]) ≠ [] := by
  intro xss
  cases xss with
  | nil => exact hf
  | cons x t =>
    rw [List.cons_append, joinChar_cons_of_ne x (by simp)]
    simp

theorem joinChar_last_take_one {c : Char} (P : Char → Prop) {f : List Char}
    (hf : f ≠ []) (hP : ∀ ch ∈ f.reverse.take 1, P ch) :
    ∀ xss : List (List Char), ∀ ch ∈ (joinChar c (xss ++ [f])).reverse.take 1, P ch := by
  intro xss
  induction xss with
  | nil => exact hP
  | cons x t ih =>
    intro ch hch
    rw [List.cons_append, joinChar_cons_of_ne x (by simp),
      List.reverse_append, List.reverse_cons,
      takeOne_append (by simp),
      takeOne_append (by simpa using joinChar_append_singleton_ne_nil hf t)] at hch
    exact ih ch hch

theorem rowOf_props {r : Record} (h : roundTrippableB r = true) :
    ('\n' ∉ (rowOf r).data) ∧
    (rowOf r).data ≠ [] ∧
    (∀ ch ∈ (rowOf r).data.take 1, ch.isWhitespace = false) ∧
    (∀ ch ∈ (rowOf r).data.reverse.take 1, ch.isWhitespace = false) ∧
    Record.from_csv (rowOf r) = .ok r := by
  obtain ⟨dt, nm, qt, qx, qc, hdt, hvalid, hnm, hnmc, hqt, hqtd, hqx, hqxd,
    hqc, hqcd, hfc, hfne, hflast, hft⟩ := roundTrippable_fields h
  have hfields : (rowOf r).data
      = joinChar ',' [(PyDate.isoStr dt).data, nm.data, (pyFloatStr qt).data,
          (pyFloatStr qx).data, (pyFloatStr qc).data, r.filename.data] := by
    unfold rowOf
    rw [hdt, hnm, hqt, hqx, hqc]
    rfl
  have hd1ne : (PyDate.isoStr dt).data ≠ [] := by
    rw [show (PyDate.isoStr dt).data = padZeros 4 dt.year ++ '-' ::
      (padZeros 2 dt.month ++ '-' :: padZeros 2 dt.day) from rfl]
    simp
  have hno_nl : '\n' ∉ (rowOf r).data := by
    rw [hfields]
    intro hmem
    rcases mem_joinChar hmem with hcomma | ⟨l, hl, hinl⟩
    · exact absurd hcomma (by decide)
    · simp only [List.mem_cons, List.not_mem_nil, or_false] at hl
      rcases hl with rfl | rfl | rfl | rfl | rfl | rfl
      · exact (isoStr_no_sep dt).2 hinl
      · exact hnmc.2 hinl
      · exact (pyFloatStr_no_sep hqtd).2 hinl
      · exact (pyFloatStr_no_sep hqxd).2 hinl
      · exact (pyFloatStr_no_sep hqcd).2 hinl
      · exact hfc.2 hinl
  have hhead : ∀ ch ∈ (rowOf r).data.take 1, ch.isWhitespace = false := by
    intro ch hch
    rw [hfields, joinChar_take_one _ hd1ne] at hch
    exact (isDigit_ne _ (isoStr_head dt ch hch)).2.2.2.2
  have hlast : ∀ ch ∈ (rowOf r).data.reverse.take 1, ch.isWhitespace = false := by
    intro ch hch
    rw [hfields] at hch
    exact joinChar_last_take_one _ hfne hflast
      [(PyDate.isoStr dt).data, nm.data, (pyFloatStr qt).data,
       (pyFloatStr qx).data, (pyFloatStr qc).data] ch hch
  have hnocomma : ∀ l ∈ [(PyDate.isoStr dt).data, nm.data, (pyFloatStr qt).data,
      (pyFloatStr qx).data, (pyFloatStr qc).data, r.filename.data], ',' ∉ l := by
    intro l hl
    simp only [List.mem_cons, List.not_mem_nil, or_false] at hl
    rcases hl with rfl | rfl | rfl | rfl | rfl | rfl
    · exact (isoStr_no_sep dt).1
    · exact hnmc.1
    · exact (pyFloatStr_no_sep hqtd).1
    · exact (pyFloatStr_no_sep hqxd).1
    · exact (pyFloatStr_no_sep hqcd).1
    · exact hfc.1
  have hstrip : stripChars (rowOf r).data = (rowOf r).data :=
    stripChars_eq_self hhead hlast
  have hstripped : pyStrip (rowOf r) = rowOf r := by
    unfold pyStrip
    rw [hstrip, strMk_data]
  have hsplitrow : pySplit ',' (rowOf r) = [PyDate.isoStr dt, nm, pyFloatStr qt,
      pyFloatStr qx, pyFloatStr qc, r.filename] := by
    unfold pySplit
    rw [hfields, splitChar_joinChar (by simp) hnocomma]
    simp [strMk_data]
  have hconcl : ({ filename := r.filename,
                   filetype := some (FileType.ofValue ((pySplit '.' r.filename).getLastD "")),
                   date := some dt, name := some nm, total := some qt,
                   tax := some qx, confidence := some qc } : Record) = r := by
    rw [← hdt, ← hnm, ← hqt, ← hqx, ← hqc, ← hft]
  refine ⟨hno_nl, ?_, hhead, hlast, ?_⟩
  · rw [hfields]
    exact joinChar_cons_ne_nil _ hd1ne
  · unfold Record.from_csv
    rw [hstripped, hsplitrow]
    simp only [Record.fromFields]
    rw [PyDate.fromisoformat_isoStr hvalid, exBind_ok,
      pyFloat_pyFloatStr hqtd, exBind_ok,
      pyFloat_pyFloatStr hqxd, exBind_ok,
      pyFloat_pyFloatStr hqcd, exBind_ok, exPure]
    exact congrArg Except.ok hconcl

theorem joinChar_last_take_one_all {c : Char} (P : Char → Prop)
    {L : List (List Char)} (hne : L ≠ []) (hnil : ∀ l ∈ L, l ≠ [])
    (hP : ∀ l ∈ L, ∀ ch ∈ l.reverse.take 1, P ch) :
    ∀ ch ∈ (joinChar c L).reverse.take 1, P ch := by
  have hdecomp := List.dropLast_append_getLast hne
  rw [← hdecomp]
  exact joinChar_last_take_one P (hnil _ (List.getLast_mem hne))
    (hP _ (List.getLast_mem hne)) L.dropLast

/-- C2 (amended): for every record set whose records satisfy the
round-trip conditions — all fields set, valid date, finite decimal
numerics, no embedded comma or newline, nonempty filename without
trailing whitespace, filetype agreeing with the filename extension —
parsing the serialized ledger yields exactly the record set keyed by
filename. -/
theorem claimC2_roundtrip (rs : List Record)
    (hgood : ∀ r ∈ rs, roundTrippableB r = true) :
    (Record.generate_csv rs).bind Record.parse_csv = .ok (Record.toMap rs) := by
  cases rs with
  | nil => rfl
  | cons r0 rtl =>
    have hprops : ∀ x ∈ r0 :: rtl,
        ('\n' ∉ (rowOf x).data) ∧ (rowOf x).data ≠ [] ∧
        (∀ ch ∈ (rowOf x).data.take 1, ch.isWhitespace = false) ∧
        (∀ ch ∈ (rowOf x).data.reverse.take 1, ch.isWhitespace = false) ∧
        Record.from_csv (rowOf x) = .ok x :=
      fun x hx => rowOf_props (hgood x hx)
    have hrowsOk : mapExcept Record.strRecord (r0 :: rtl)
        = .ok ((r0 :: rtl).map rowOf) := by
      refine mapExcept_ok_of _ _ ?_
      intro x hx
      obtain ⟨dt, nm, qt, qx, qc, hdt, hvalid, hnm, hrest⟩ :=
        roundTrippable_fields (hgood x hx)
      exact strRecord_eq_rowOf hnm
    have hgen : Record.generate_csv (r0 :: rtl)
        = .ok (Record.headerStr ++ "\n" ++ pyJoin '\n' ((r0 :: rtl).map rowOf)) := by
      show (mapExcept Record.strRecord (r0 :: rtl) >>= fun rows =>
        pure (Record.headerStr ++ "\n" ++ pyJoin '\n' rows)) = _
      rw [hrowsOk, exBind_ok, exPure]
    have htextdata : (Record.headerStr ++ "\n" ++ pyJoin '\n' ((r0 :: rtl).map rowOf)).data
        = Record.headerStr.data ++ '\n' ::
          joinChar '\n' (((r0 :: rtl).map rowOf).map String.data) := by
      rw [String.data_append, String.data_append, List.append_assoc]
      rfl
    have hLne : ((r0 :: rtl).map rowOf).map String.data ≠ [] := by simp
    have hLnil : ∀ l ∈ ((r0 :: rtl).map rowOf).map String.data, l ≠ [] := by
      intro l hl
      obtain ⟨s, hs, rfl⟩ := List.mem_map.mp hl
      obtain ⟨x, hx, rfl⟩ := List.mem_map.mp hs
      exact (hprops x hx).2.1
    have hLnl : ∀ l ∈ ((r0 :: rtl).map rowOf).map String.data, '\n' ∉ l := by
      intro l hl
      obtain ⟨s, hs, rfl⟩ := List.mem_map.mp hl
      obtain ⟨x, hx, rfl⟩ := List.mem_map.mp hs
      exact (hprops x hx).1
    have hLlast : ∀ l ∈ ((r0 :: rtl).map rowOf).map String.data,
        ∀ ch ∈ l.reverse.take 1, ch.isWhitespace = false := by
      intro l hl
      obtain ⟨s, hs, rfl⟩ := List.mem_map.mp hl
      obtain ⟨x, hx, rfl⟩ := List.mem_map.mp hs
      exact (hprops x hx).2.2.2.1
    have hheadtake : Record.headerStr.data.take 1 = ['d'] := by decide
    have hstripText : stripChars (Record.headerStr ++ "\n" ++
        pyJoin '\n' ((r0 :: rtl).map rowOf)).data
        = (Record.headerStr ++ "\n" ++ pyJoin '\n' ((r0 :: rtl).map rowOf)).data := by
      refine stripChars_eq_self ?_ ?_
      · intro ch hch
        rw [htextdata, takeOne_append (by decide), hheadtake,
          List.mem_singleton] at hch
        rw [hch]
        decide
      · intro ch hch
        rw [htextdata, List.reverse_append, List.reverse_cons,
          takeOne_append (by simp)] at hch
        have hJne : joinChar '\n' (((r0 :: rtl).map rowOf).map String.data) ≠ [] := by
          rw [show ((r0 :: rtl).map rowOf).map String.data
            = (rowOf r0).data :: (rtl.map rowOf).map String.data from rfl]
          exact joinChar_cons_ne_nil _ ((hprops r0 (List.mem_cons_self r0 rtl)).2.1)
        rw [takeOne_append (by simpa using hJne)] at hch
        exact joinChar_last_take_one_all _ hLne hLnil hLlast ch hch
    have hsplitText : pySplit '\n' (pyStrip (Record.headerStr ++ "\n" ++
        pyJoin '\n' ((r0 :: rtl).map rowOf)))
        = Record.headerStr :: (r0 :: rtl).map rowOf := by
      unfold pySplit pyStrip
      rw [show (String.mk (stripChars (Record.headerStr ++ "\n" ++
        pyJoin '\n' ((r0 :: rtl).map rowOf)).data)).data
        = stripChars (Record.headerStr ++ "\n" ++
          pyJoin '\n' ((r0 :: rtl).map rowOf)).data from rfl]
      rw [hstripText, htextdata, splitChar_append_sep _ (by decide),
        splitChar_joinChar hLne hLnl]
      simp [strMk_data]
    have hfilter : ((r0 :: rtl).map rowOf).filter (fun l => ¬ pyStrip l = "")
        = (r0 :: rtl).map rowOf := by
      rw [List.filter_eq_self]
      intro a ha
      obtain ⟨x, hx, rfl⟩ := List.mem_map.mp ha
      have hstripa : pyStrip (rowOf x) = rowOf x := by
        unfold pyStrip
        rw [stripChars_eq_self (hprops x hx).2.2.1 (hprops x hx).2.2.2.1, strMk_data]
      rw [hstripa]
      simp only [decide_eq_true_eq]
      intro heq
      exact (hprops x hx).2.1 (congrArg String.data heq)
    have hmapfrom : mapExcept Record.from_csv ((r0 :: rtl).map rowOf)
        = .ok (r0 :: rtl) :=
      mapExcept_map_id _ _ (fun x hx => (hprops x hx).2.2.2.2)
    rw [hgen]
    show Record.parse_csv (Record.headerStr ++ "\n" ++
      pyJoin '\n' ((r0 :: rtl).map rowOf)) = .ok (Record.toMap (r0 :: rtl))
    simp only [Record.parse_csv, hsplitText]
    rw [if_neg (by simp)]
    show (mapExcept Record.from_csv (((r0 :: rtl).map rowOf).filter
      (fun l => ¬ pyStrip l = "")) >>= fun recs => pure (Record.toMap recs)) = _
    rw [hfilter, hmapfrom, exBind_ok, exPure]

/-- A record whose fields hold no comma or newline but whose filetype (pdf)
disagrees with its filename's extension (jpg). -/
def recMismatch : Record :=
  { filename := "a.jpg", filetype := some .pdf, date := some ⟨2024, 1, 15⟩,
    name := some "x", total := some (ratLit 1 2), tax := some (ratLit 1 2),
    confidence := some (ratLit 1 2) }

/-- C2 (counterexample to the claim as stated): serializing and re-parsing
a record set whose fields hold no comma or newline does not return the
same mapping — the serialization never stores the filetype, and parsing
re-derives it from the filename extension, so the pdf filetype comes back
as jpg. -/
theorem claimC2_counterexample :
    ((Record.generate_csv [recMismatch]).bind Record.parse_csv).map
        (fun m => m "a.jpg")
      = .ok (some { recMismatch with filetype := some .jpg }) ∧
    ({ recMismatch with filetype := some .jpg } : Record) ≠ recMismatch ∧
    Record.toMap [recMismatch] "a.jpg" = some recMismatch := by
  refine ⟨by decide, by decide, by decide⟩

/-- A record satisfying every round-trip condition. -/
def recGood : Record :=
  { filename := "a.jpg", filetype := some .jpg, date := some ⟨2024, 1, 15⟩,
    name := some "Best Buy", total := some (ratLit 247 2), tax := some (ratLit 1013 100),
    confidence := some (ratLit 93 100) }

/-- C2 witness: a concrete singleton record set meeting the round-trip
conditions; serialization then parsing returns it keyed by filename. -/
theorem claimC2_witness :
    (∀ r ∈ [recGood], roundTrippableB r = true) ∧
    (Record.generate_csv [recGood]).bind Record.parse_csv
      = .ok (Record.toMap [recGood]) :=
  ⟨by decide, claimC2_roundtrip [recGood] (by decide)⟩
